import Mathlib

/-!
Verification of the shoppingLLM store-graph route engine.

This file shallowly embeds `src/storeGraph.py` and `src/pathFinder.py`:
the NetworkX graph built by `build_store_graph`, the item lookup
`find_section_by_item`, the per-leg shortest-path routine
`find_shortest_path`, and the route executor `execute_plan`.

Python floats are modelled as rationals: every edge weight exercised by
the properties below is exactly representable, and none of the
properties depends on rounding.  `nx.shortest_path` (Dijkstra on
non-negative weights) is modelled as the minimum-weight simple path,
picked by a deterministic scan; the properties proved below do not
depend on tie-breaking among equal-weight paths.  The file-reading side
of `build_store_graph` is modelled by passing the parsed storeMap JSON
(`Venue`) as an argument.
-/

namespace ShoppingLLM

/-- Attribute record stored by `build_store_graph` for a node coming from
the venue's node table: the source stores x, y, section and items. -/
structure NodeRec where
  x : ℚ
  y : ℚ
  sectionLabel : String
  items : List String
deriving DecidableEq

/-- A NetworkX `Graph` as the program uses it: nodes in insertion order,
each with its attribute record (`none` models the empty attribute dict of
a node silently created by `add_edge`), plus an undirected weighted edge
list. -/
structure Graph where
  nodes : List (String × Option NodeRec)
  edges : List (String × String × ℚ)
deriving DecidableEq

def emptyGraph : Graph := ⟨[], []⟩

/-- `u in G` (node membership). -/
def hasNode (G : Graph) (u : String) : Bool :=
  G.nodes.any (fun p => p.1 == u)

/-- `G.has_edge(u, v)` on an undirected graph. -/
def hasEdge (G : Graph) (u v : String) : Bool :=
  G.edges.any (fun e => (e.1 == u && e.2.1 == v) || (e.1 == v && e.2.1 == u))

/-- `G.add_node(id, x, y, section, items)`: insert, or overwrite the
attributes of an existing node. -/
def addNode (G : Graph) (u : String) (r : NodeRec) : Graph :=
  if hasNode G u then
    { G with nodes := G.nodes.map (fun p => if p.1 == u then (u, some r) else p) }
  else
    { G with nodes := G.nodes ++ [(u, some r)] }

/-- `add_edge` silently creates a missing endpoint with an empty
attribute dict. -/
def ensureNode (G : Graph) (u : String) : Graph :=
  if hasNode G u then G else { G with nodes := G.nodes ++ [(u, none)] }

/-- `G.add_edge(u, v, w)`. -/
def addEdge (G : Graph) (u v : String) (w : ℚ) : Graph :=
  let G1 := ensureNode (ensureNode G u) v
  { G1 with edges := G1.edges ++ [(u, v, w)] }

/-- A JSON value standing in an edge-weight position: either a number or
something Python's `float()` rejects (object, array, null, non-numeric
string). -/
inductive Wt where
  | num (q : ℚ)
  | nonNumeric
deriving DecidableEq

/-- `float(dist)`: numbers convert; anything else raises `ValueError`. -/
def floatOf : Wt → Except Unit ℚ
  | .num q => .ok q
  | .nonNumeric => .error ()

/-- One entry of storeMap's node table.  `x` and `y` are required by the
source (indexed directly); section and items are read with
`props.get("section", "")` and `props.get("items", [])`, so they may be
absent (`none`). -/
structure NodeProps where
  x : ℚ
  y : ℚ
  sectionLabel : Option String
  items : Option (List String)
deriving DecidableEq

/-- The parsed storeMap.json consumed by `build_store_graph`: a node
table and an edge table, both in JSON-object insertion order. -/
structure Venue where
  nodes : List (String × NodeProps)
  edges : List (String × List (String × Wt))
deriving DecidableEq

/-- The node-adding loop of `build_store_graph`. -/
def addNodesFrom : List (String × NodeProps) → Graph → Graph
  | [], G => G
  | (nid, p) :: rest, G =>
      addNodesFrom rest
        (addNode G nid ⟨p.x, p.y, p.sectionLabel.getD "", p.items.getD []⟩)

/-- The inner edge-adding loop: `float(dist)` is evaluated only when the
edge is not already present, exactly as in the source. -/
def addNbrsFrom (src : String) : List (String × Wt) → Graph → Except Unit Graph
  | [], G => .ok G
  | (dest, wt) :: rest, G =>
      if hasEdge G src dest then addNbrsFrom src rest G
      else
        match floatOf wt with
        | .error e => .error e
        | .ok w => addNbrsFrom src rest (addEdge G src dest w)

/-- The outer edge-adding loop of `build_store_graph`. -/
def addEdgesFrom : List (String × List (String × Wt)) → Graph → Except Unit Graph
  | [], G => .ok G
  | (src, nbrs) :: rest, G =>
      match addNbrsFrom src nbrs G with
      | .error e => .error e
      | .ok G2 => addEdgesFrom rest G2

/-- `build_store_graph`: add all nodes, then all edges.  The only failure
is the `ValueError` raised by `float(dist)` on a non-numeric weight; no
other validation is performed. -/
def buildStoreGraph (v : Venue) : Except Unit Graph :=
  addEdgesFrom v.edges (addNodesFrom v.nodes emptyGraph)

/-- `attrs.get("items", [])`. -/
def itemsOf : Option NodeRec → List String
  | some r => r.items
  | none => []

/-- `attrs["section"]`.  For a node with an empty attribute dict this
would raise KeyError in Python; it is only read after an item matched,
and such nodes have no items, so the `none` branch is unreachable. -/
def sectionOf : Option NodeRec → String
  | some r => r.sectionLabel
  | none => ""

/-- Python's substring test `needle in hay` on character lists. -/
def substrOf : List Char → List Char → Bool
  | n, [] => n.isEmpty
  | n, c :: rest => n.isPrefixOf (c :: rest) || substrOf n rest

/-- `find_section_by_item`: case-insensitive substring match; one result
entry is appended per matching item. -/
def findSectionByItem (G : Graph) (itemName : String) : List (String × String) :=
  let q := itemName.toLower
  G.nodes.flatMap (fun nd =>
    (itemsOf nd.2).filterMap (fun it =>
      if substrOf q.toList it.toLower.toList then some (nd.1, sectionOf nd.2)
      else none))

/-- Neighbors of `u` with edge weights, scanning the undirected edge
list in both directions. -/
def neighborsOf (G : Graph) (u : String) : List (String × ℚ) :=
  G.edges.filterMap (fun e =>
    if e.1 == u then some (e.2.1, e.2.2)
    else if e.2.1 == u then some (e.1, e.2.2)
    else none)

/-- All endpoints occurring in the edge list. -/
def edgeNodes (G : Graph) : List String :=
  G.edges.flatMap (fun e => [e.1, e.2.1])

/-- All simple paths from `u` to `tgt` avoiding `visited`, with enough
fuel to cover every simple path of the graph. -/
def simplePathsAux (G : Graph) (fuel : Nat) (visited : List String) (u tgt : String) :
    List (List String) :=
  if u = tgt then [[u]]
  else
    match fuel with
    | 0 => []
    | Nat.succ f =>
        (neighborsOf G u).flatMap (fun vw =>
          if vw.1 ∈ visited then []
          else (simplePathsAux G f (u :: visited) vw.1 tgt).map (fun p => u :: p))

/-- Every simple path between two nodes. -/
def simplePathsBetween (G : Graph) (a b : String) : List (List String) :=
  simplePathsAux G G.nodes.length [] a b

/-- Weight of the (unique) stored edge between `u` and `v`. -/
def edgeWeight (G : Graph) (u v : String) : ℚ :=
  match G.edges.find? (fun e => (e.1 == u && e.2.1 == v) || (e.1 == v && e.2.1 == u)) with
  | some e => e.2.2
  | none => 0

/-- Total weight of a node sequence. -/
def pathWeight (G : Graph) : List String → ℚ
  | u :: v :: rest => edgeWeight G u v + pathWeight G (v :: rest)
  | _ => 0

/-- Deterministically pick a minimum-weight candidate (first minimum
wins). -/
def pickMin (w : List String → ℚ) : List (List String) → Option (List String)
  | [] => none
  | p :: ps =>
      match pickMin w ps with
      | none => some p
      | some q => if w q < w p then some q else some p

/-- The two failures of `find_shortest_path`: the explicit
`ValueError("Invalid node(s) provided.")`, and NetworkX's
`NetworkXNoPath`. -/
inductive FindError where
  | invalidNodes
  | noPath
deriving DecidableEq

/-- `find_shortest_path`: reject absent endpoints, then return a
minimum-weight path and its length. -/
def findShortestPath (G : Graph) (a b : String) : Except FindError (List String × ℚ) :=
  if hasNode G a && hasNode G b then
    match pickMin (pathWeight G) (simplePathsBetween G a b) with
    | none => .error .noPath
    | some p => .ok (p, pathWeight G p)
  else .error .invalidNodes

/-- `G.remove_nodes_from(avoid)`: drop listed nodes and every incident
edge. -/
def removeNodesFrom (G : Graph) (avoid : List String) : Graph :=
  { nodes := G.nodes.filter (fun p => decide (¬ p.1 ∈ avoid)),
    edges := G.edges.filter (fun e => decide (¬ e.1 ∈ avoid) && decide (¬ e.2.1 ∈ avoid)) }

/-- `remove_avoids`: the truthiness guard, then in-place removal. -/
def removeAvoids (G : Graph) (avoid : List String) : Graph :=
  if avoid.isEmpty then G else removeNodesFrom G avoid

/-- `append_to_path`: extend with the whole first leg, then with each
later leg minus its first (join) node. -/
def appendToPath (pathList subPath : List String) : List String :=
  if pathList.isEmpty then subPath else pathList ++ subPath.drop 1

/-- The route-plan dict.  `none` in start or stop models a missing key
or JSON null; waypoints and avoid default to `[]` exactly as the
source's `plan.get` calls (and the `or []` on waypoints) do. -/
structure Plan where
  start : Option String
  waypoints : List String
  endId : Option String
  avoid : List String
deriving DecidableEq

/-- The exceptions observable from `execute_plan`: an error escaping
`build_store_graph`, the missing start/end `ValueError`, the wrapped
per-leg `ValueError` naming the leg's endpoints, and the KeyError that
`draw_path` raises while building the position dict when a node lacks
coordinates. -/
inductive ExecError where
  | malformedBuild
  | missingStartEnd
  | legError (a b : String) (e : FindError)
  | drawKeyError
deriving DecidableEq

/-- The `for a, b in zip(waypoints, waypoints[1:])` loop of
`execute_plan`: compute each leg, stitch, and accumulate the distance
left to right. -/
def legsLoop (G : Graph) : String → List String → List String → ℚ → Except ExecError (List String × ℚ)
  | _, [], acc, tot => .ok (acc, tot)
  | a, b :: rest, acc, tot =>
      match findShortestPath G a b with
      | .error e => .error (.legError a b e)
      | .ok (sub, d) => legsLoop G b rest (appendToPath acc sub) (tot + d)

/-- `draw_path` builds `pos` from every node's x and y attributes; a node
created by a dangling edge reference has none, raising KeyError.  The
matplotlib rendering itself has no further observable effect. -/
def drawCheck (G : Graph) : Bool :=
  G.nodes.all (fun p => p.2.isSome)

/-- The body of `execute_plan` after its graph has been built and
filtered: key normalization, the None check, the leg loop, and the final
`draw_path` call. -/
def executePlanCore (G : Graph) (p : Plan) : Except ExecError (List String × ℚ) :=
  match p.start, p.endId with
  | some s, some e =>
      match legsLoop G s (p.waypoints ++ [e]) [] 0 with
      | .error err => .error err
      | .ok (path, tot) =>
          if drawCheck G then .ok (path, tot) else .error .drawKeyError
  | _, _ => .error .missingStartEnd

/-- `execute_plan`: build the graph, remove the avoid set from it, then
run the rest of the function.  The `Venue` argument is the storeMap
description the source's `build_store_graph()` call reads from disk. -/
def executePlan (v : Venue) (p : Plan) : Except ExecError (List String × ℚ) :=
  match buildStoreGraph v with
  | .error _ => .error .malformedBuild
  | .ok G0 => executePlanCore (removeAvoids G0 p.avoid) p

/-- The list of per-leg distances `execute_plan` accumulates, in request
order. -/
def legDists (G : Graph) : String → List String → Option (List ℚ)
  | _, [] => some []
  | a, b :: rest =>
      match findShortestPath G a b with
      | .error _ => none
      | .ok (_, d) => (legDists G b rest).map (fun ds => d :: ds)

/-- `req` occurs inside `path` in order: each element of `req` is matched
at a position of `path`, and the matched positions are non-decreasing
(several equal consecutive requests may share one position). -/
def weakSub : List String → List String → Bool
  | [], _ => true
  | _ :: _, [] => false
  | r :: rs, p :: ps => (r == p && weakSub rs (p :: ps)) || weakSub (r :: rs) ps
termination_by l1 l2 => l1.length + l2.length

/-- Consecutive pairs of a list, i.e. the legs of a waypoint sequence. -/
def pairsOf : List String → List (String × String)
  | a :: b :: rest => (a, b) :: pairsOf (b :: rest)
  | _ => []

/-- The graph objects alive in the Python process: slot 0 may hold a
graph some caller loaded and shares; `execute_plan` allocates its own. -/
structure ObjStore where
  graphs : List Graph
deriving DecidableEq

/-- `execute_plan` with Python object identity made explicit: the call
allocates a fresh graph object for its `build_store_graph()` result and
`remove_avoids` mutates that object in place; every previously allocated
graph object is a different slot. -/
def executePlanSt (v : Venue) (p : Plan) (s : ObjStore) :
    Except ExecError (List String × ℚ) × ObjStore :=
  match buildStoreGraph v with
  | .error _ => (.error .malformedBuild, s)
  | .ok G0 =>
      let idx := s.graphs.length
      let s2 : ObjStore :=
        ⟨(s.graphs ++ [G0]).set idx
          (removeAvoids ((s.graphs ++ [G0]).getD idx emptyGraph) p.avoid)⟩
      (executePlanCore (s2.graphs.getD idx emptyGraph) p, s2)

/-- The spec's worked example: nodes ENTRY1, D03, E02, REG with the four
listed edges. -/
def exVenue : Venue :=
  { nodes := [("ENTRY1", ⟨0, 0, some "Entrance", some []⟩),
              ("D03", ⟨2, 0, some "Dairy", some []⟩),
              ("E02", ⟨2, 2, some "Electronics", some []⟩),
              ("REG", ⟨4, 0, some "Registers", some []⟩)],
    edges := [("ENTRY1", [("D03", .num 2)]),
              ("D03", [("E02", .num 2), ("REG", .num 2)]),
              ("E02", [("REG", .num 3)])] }

/-- The spec's worked example request. -/
def exPlan : Plan :=
  { start := some "ENTRY1", waypoints := ["D03", "E02"], endId := some "REG", avoid := [] }

/-- Example request avoiding E02 on the same venue. -/
def exPlanAvoid : Plan :=
  { start := some "ENTRY1", waypoints := [], endId := some "REG", avoid := ["E02"] }

/-- Two connected nodes. -/
def vAB : Venue :=
  { nodes := [("A", ⟨0, 0, some "", some []⟩), ("B", ⟨1, 0, some "", some []⟩)],
    edges := [("A", [("B", .num 1)])] }

/-- Two nodes, no edge at all. -/
def vABdisc : Venue :=
  { nodes := [("A", ⟨0, 0, some "", some []⟩), ("B", ⟨1, 0, some "", some []⟩)],
    edges := [] }

/-- A single node; B never exists here. -/
def vA : Venue :=
  { nodes := [("A", ⟨0, 0, some "", some []⟩)], edges := [] }

/-- Route A to B with B removed by the avoid set. -/
def planAvoidB : Plan :=
  { start := some "A", waypoints := [], endId := some "B", avoid := ["B"] }

/-- Route A to B with no avoid set. -/
def planAB : Plan :=
  { start := some "A", waypoints := [], endId := some "B", avoid := [] }

/-- Route with an empty-string start, which the source's None check does
not catch. -/
def planEmptyStart : Plan :=
  { start := some "", waypoints := [], endId := some "B", avoid := [] }

/-- A venue whose edge table references a node absent from the node
table, with a negative weight. -/
def vMalformed : Venue :=
  { nodes := [("A", ⟨0, 0, some "", some []⟩)],
    edges := [("A", [("B", .num (-2))])] }

/-- A venue with one node whose item list matches a query twice. -/
def vDairy : Venue :=
  { nodes := [("A", ⟨0, 0, some "Dairy", some ["milk", "milkshake"]⟩)],
    edges := [] }

/-- The graph `build_store_graph` produces from `exVenue`. -/
def gEx : Graph :=
  { nodes := [("ENTRY1", some ⟨0, 0, "Entrance", []⟩),
              ("D03", some ⟨2, 0, "Dairy", []⟩),
              ("E02", some ⟨2, 2, "Electronics", []⟩),
              ("REG", some ⟨4, 0, "Registers", []⟩)],
    edges := [("ENTRY1", "D03", 2), ("D03", "E02", 2), ("D03", "REG", 2), ("E02", "REG", 3)] }

/-- The graph `build_store_graph` produces from `vAB`. -/
def gAB : Graph :=
  { nodes := [("A", some ⟨0, 0, "", []⟩), ("B", some ⟨1, 0, "", []⟩)],
    edges := [("A", "B", 1)] }

/-- The graph `build_store_graph` produces from `vABdisc`. -/
def gABdisc : Graph :=
  { nodes := [("A", some ⟨0, 0, "", []⟩), ("B", some ⟨1, 0, "", []⟩)],
    edges := [] }

/-- The graph `build_store_graph` produces from `vDairy`. -/
def gDairy : Graph :=
  { nodes := [("A", some ⟨0, 0, "Dairy", ["milk", "milkshake"]⟩)],
    edges := [] }

/-- A plan with no start at all (missing key or null). -/
def planNoneStart : Plan :=
  { start := none, waypoints := [], endId := some "B", avoid := [] }

/-- The spec's edge-weight invariant: every numeric weight the venue
declares is non-negative. -/
def venueWeightsNonneg (v : Venue) : Bool :=
  v.edges.all (fun se => se.2.all (fun dw =>
    match dw.2 with
    | .num q => decide (0 ≤ q)
    | .nonNumeric => true))

theorem pickMin_mem {w : List String → ℚ} :
    ∀ {l : List (List String)} {p : List String}, pickMin w l = some p → p ∈ l := by
  intro l
  induction l with
  | nil => intro p h; simp [pickMin] at h
  | cons q qs ih =>
    intro p h
    cases hrec : pickMin w qs with
    | none =>
      simp only [pickMin, hrec] at h
      cases h; exact List.mem_cons_self ..
    | some r =>
      simp only [pickMin, hrec] at h
      by_cases hlt : w r < w q
      · rw [if_pos hlt] at h; cases h; exact List.mem_cons_of_mem _ (ih hrec)
      · rw [if_neg hlt] at h; cases h; exact List.mem_cons_self ..

theorem simplePathsAux_shape {G : Graph} {fuel : Nat} {vis : List String} {u tgt : String}
    {p : List String} (hp : p ∈ simplePathsAux G fuel vis u tgt) : ∃ q, p = u :: q := by
  rw [simplePathsAux.eq_def] at hp
  split at hp
  · simp only [List.mem_singleton] at hp
    exact ⟨[], by simp [hp]⟩
  · cases fuel with
    | zero => simp at hp
    | succ f =>
      simp only [List.mem_flatMap] at hp
      obtain ⟨vw, _, hmem⟩ := hp
      split at hmem
      · simp at hmem
      · simp only [List.mem_map] at hmem
        obtain ⟨q, _, rfl⟩ := hmem
        exact ⟨q, rfl⟩

theorem simplePathsAux_last {G : Graph} {tgt : String} :
    ∀ (fuel : Nat) (vis : List String) (u : String) (p : List String),
      p ∈ simplePathsAux G fuel vis u tgt → p.getLast? = some tgt := by
  intro fuel
  induction fuel with
  | zero =>
    intro vis u p hp
    rw [simplePathsAux.eq_def] at hp
    split at hp
    · rename_i h
      simp only [List.mem_singleton] at hp
      subst hp; simp [h]
    · simp at hp
  | succ f ih =>
    intro vis u p hp
    rw [simplePathsAux.eq_def] at hp
    split at hp
    · rename_i h
      simp only [List.mem_singleton] at hp
      subst hp; simp [h]
    · simp only [List.mem_flatMap] at hp
      obtain ⟨vw, _, hmem⟩ := hp
      split at hmem
      · simp at hmem
      · simp only [List.mem_map] at hmem
        obtain ⟨q, hq, rfl⟩ := hmem
        have hlast := ih _ _ _ hq
        obtain ⟨q2, rfl⟩ := simplePathsAux_shape hq
        simpa using hlast

theorem neighborsOf_mem_edgeNodes {G : Graph} {u : String} {vw : String × ℚ}
    (h : vw ∈ neighborsOf G u) : vw.1 ∈ edgeNodes G := by
  simp only [neighborsOf, List.mem_filterMap] at h
  obtain ⟨e, he, hf⟩ := h
  simp only [edgeNodes, List.mem_flatMap]
  split at hf
  · cases hf; exact ⟨e, he, by simp⟩
  · split at hf
    · cases hf; exact ⟨e, he, by simp⟩
    · cases hf

theorem simplePathsAux_mem {G : Graph} {tgt : String} :
    ∀ (fuel : Nat) (vis : List String) (u : String) (p : List String),
      p ∈ simplePathsAux G fuel vis u tgt → ∀ x ∈ p, x = u ∨ x ∈ edgeNodes G := by
  intro fuel
  induction fuel with
  | zero =>
    intro vis u p hp x hx
    rw [simplePathsAux.eq_def] at hp
    split at hp
    · simp only [List.mem_singleton] at hp
      subst hp
      simp only [List.mem_singleton] at hx
      exact Or.inl hx
    · simp at hp
  | succ f ih =>
    intro vis u p hp x hx
    rw [simplePathsAux.eq_def] at hp
    split at hp
    · simp only [List.mem_singleton] at hp
      subst hp
      simp only [List.mem_singleton] at hx
      exact Or.inl hx
    · simp only [List.mem_flatMap] at hp
      obtain ⟨vw, hvw, hmem⟩ := hp
      split at hmem
      · simp at hmem
      · simp only [List.mem_map] at hmem
        obtain ⟨q, hq, rfl⟩ := hmem
        rcases List.mem_cons.mp hx with rfl | hx2
        · exact Or.inl rfl
        · rcases ih _ _ _ hq x hx2 with rfl | he
          · exact Or.inr (neighborsOf_mem_edgeNodes hvw)
          · exact Or.inr he

theorem findShortestPath_ok {G : Graph} {a b : String} {p : List String} {d : ℚ}
    (h : findShortestPath G a b = .ok (p, d)) :
    hasNode G a = true ∧ hasNode G b = true ∧
      p ∈ simplePathsBetween G a b ∧ d = pathWeight G p := by
  unfold findShortestPath at h
  split at h
  · rename_i hcond
    rw [Bool.and_eq_true] at hcond
    cases hpick : pickMin (pathWeight G) (simplePathsBetween G a b) with
    | none => rw [hpick] at h; cases h
    | some q =>
      rw [hpick] at h
      cases h
      exact ⟨hcond.1, hcond.2, pickMin_mem hpick, rfl⟩
  · cases h

theorem findShortestPath_shape {G : Graph} {a b : String} {p : List String} {d : ℚ}
    (h : findShortestPath G a b = .ok (p, d)) : ∃ q, p = a :: q :=
  simplePathsAux_shape (findShortestPath_ok h).2.2.1

theorem findShortestPath_last {G : Graph} {a b : String} {p : List String} {d : ℚ}
    (h : findShortestPath G a b = .ok (p, d)) : p.getLast? = some b :=
  simplePathsAux_last _ _ _ _ (findShortestPath_ok h).2.2.1

theorem hasNode_removeAvoids_not_avoid {G : Graph} {av : List String} {u : String}
    (h : hasNode (removeAvoids G av) u = true) : ¬ u ∈ av := by
  unfold removeAvoids at h
  split at h
  · rename_i hemp
    rw [List.isEmpty_iff] at hemp
    subst hemp
    simp
  · unfold removeNodesFrom hasNode at h
    simp only [List.any_eq_true, List.mem_filter] at h
    obtain ⟨pr, ⟨_, hdec⟩, hbeq⟩ := h
    rw [beq_iff_eq] at hbeq
    subst hbeq
    exact of_decide_eq_true hdec

theorem edgeNodes_removeAvoids_not_avoid {G : Graph} {av : List String} {x : String}
    (h : x ∈ edgeNodes (removeAvoids G av)) : ¬ x ∈ av := by
  unfold removeAvoids at h
  split at h
  · rename_i hemp
    rw [List.isEmpty_iff] at hemp
    subst hemp
    simp
  · simp only [edgeNodes, removeNodesFrom, List.mem_flatMap, List.mem_filter] at h
    obtain ⟨e, ⟨_, hcond⟩, hx⟩ := h
    rw [Bool.and_eq_true] at hcond
    simp only [List.mem_cons, List.mem_singleton, List.not_mem_nil, or_false] at hx
    rcases hx with rfl | rfl
    · exact of_decide_eq_true hcond.1
    · exact of_decide_eq_true hcond.2

theorem addNode_edges (G : Graph) (u : String) (r : NodeRec) :
    (addNode G u r).edges = G.edges := by
  unfold addNode; split <;> rfl

theorem addNodesFrom_edges : ∀ (ns : List (String × NodeProps)) (G : Graph),
    (addNodesFrom ns G).edges = G.edges := by
  intro ns
  induction ns with
  | nil => intro G; rfl
  | cons n rest ih =>
    intro G
    obtain ⟨nid, pr⟩ := n
    simp only [addNodesFrom]
    rw [ih, addNode_edges]

theorem ensureNode_edges (G : Graph) (u : String) : (ensureNode G u).edges = G.edges := by
  unfold ensureNode; split <;> rfl

theorem addEdge_edges (G : Graph) (u v : String) (w : ℚ) :
    (addEdge G u v w).edges = G.edges ++ [(u, v, w)] := by
  simp only [addEdge, ensureNode_edges]

theorem addNbrsFrom_nonneg (src : String) :
    ∀ (nbrs : List (String × Wt)) (G G2 : Graph),
      (∀ dw ∈ nbrs, ∀ q : ℚ, dw.2 = Wt.num q → 0 ≤ q) →
      (∀ e ∈ G.edges, 0 ≤ e.2.2) →
      addNbrsFrom src nbrs G = .ok G2 →
      ∀ e ∈ G2.edges, 0 ≤ e.2.2 := by
  intro nbrs
  induction nbrs with
  | nil =>
    intro G G2 _ hG h
    simp only [addNbrsFrom] at h
    cases h
    exact hG
  | cons dw rest ih =>
    intro G G2 hn hG h
    obtain ⟨dest, wt⟩ := dw
    simp only [addNbrsFrom] at h
    split at h
    · exact ih G G2 (fun x hx => hn x (List.mem_cons_of_mem _ hx)) hG h
    · split at h
      · exact Except.noConfusion h
      · rename_i w hwt
        apply ih _ _ (fun x hx => hn x (List.mem_cons_of_mem _ hx)) _ h
        intro e he
        rw [addEdge_edges] at he
        rcases List.mem_append.mp he with he | he
        · exact hG e he
        · simp only [List.mem_singleton] at he
          subst he
          cases wt with
          | num q =>
            simp only [floatOf, Except.ok.injEq] at hwt
            subst hwt
            exact hn (dest, .num q) (List.mem_cons_self ..) q rfl
          | nonNumeric => simp [floatOf] at hwt

theorem addEdgesFrom_nonneg :
    ∀ (es : List (String × List (String × Wt))) (G G2 : Graph),
      (∀ se ∈ es, ∀ dw ∈ se.2, ∀ q : ℚ, dw.2 = Wt.num q → 0 ≤ q) →
      (∀ e ∈ G.edges, 0 ≤ e.2.2) →
      addEdgesFrom es G = .ok G2 →
      ∀ e ∈ G2.edges, 0 ≤ e.2.2 := by
  intro es
  induction es with
  | nil =>
    intro G G2 _ hG h
    simp only [addEdgesFrom] at h
    cases h
    exact hG
  | cons se rest ih =>
    intro G G2 hs hG h
    obtain ⟨src, nbrs⟩ := se
    simp only [addEdgesFrom] at h
    split at h
    · exact Except.noConfusion h
    · rename_i Gmid hmid
      exact ih Gmid G2 (fun x hx => hs x (List.mem_cons_of_mem _ hx))
        (addNbrsFrom_nonneg src nbrs G Gmid
          (fun dw hdw => hs (src, nbrs) (List.mem_cons_self ..) dw hdw) hG hmid) h

theorem buildStoreGraph_nonneg {v : Venue} {G0 : Graph}
    (hw : ∀ se ∈ v.edges, ∀ dw ∈ se.2, ∀ q : ℚ, dw.2 = Wt.num q → 0 ≤ q)
    (hb : buildStoreGraph v = .ok G0) :
    ∀ e ∈ G0.edges, 0 ≤ e.2.2 := by
  apply addEdgesFrom_nonneg v.edges _ G0 hw _ hb
  rw [addNodesFrom_edges]
  intro e he
  simp [emptyGraph] at he

theorem removeAvoids_edges_mem {G : Graph} {av : List String} {e : String × String × ℚ}
    (h : e ∈ (removeAvoids G av).edges) : e ∈ G.edges := by
  unfold removeAvoids at h
  split at h
  · exact h
  · exact (List.mem_filter.mp h).1

theorem edgeWeight_nonneg {G : Graph} (hw : ∀ e ∈ G.edges, 0 ≤ e.2.2) (u v : String) :
    0 ≤ edgeWeight G u v := by
  unfold edgeWeight
  split
  · rename_i e hf
    exact hw e (List.mem_of_find?_eq_some hf)
  · exact le_refl 0

theorem pathWeight_nonneg {G : Graph} (hw : ∀ e ∈ G.edges, 0 ≤ e.2.2) :
    ∀ p : List String, 0 ≤ pathWeight G p := by
  intro p
  induction p with
  | nil => simp [pathWeight]
  | cons u rest ih =>
    cases rest with
    | nil => simp [pathWeight]
    | cons z rest2 =>
      simp only [pathWeight]
      exact add_nonneg (edgeWeight_nonneg hw u z) ih

theorem foldl_add_nonneg : ∀ (ds : List ℚ) (c : ℚ), 0 ≤ c → (∀ d ∈ ds, 0 ≤ d) →
    0 ≤ ds.foldl (· + ·) c := by
  intro ds
  induction ds with
  | nil => intro c hc _; simpa using hc
  | cons d rest ih =>
    intro c hc hd
    rw [List.foldl_cons]
    exact ih (c + d) (add_nonneg hc (hd d (List.mem_cons_self ..)))
      (fun x hx => hd x (List.mem_cons_of_mem _ hx))

theorem legDists_nonneg {G : Graph} (hw : ∀ e ∈ G.edges, 0 ≤ e.2.2) :
    ∀ (rest : List String) (a : String) (ds : List ℚ),
      legDists G a rest = some ds → ∀ d ∈ ds, 0 ≤ d := by
  intro rest
  induction rest with
  | nil =>
    intro a ds h
    simp only [legDists] at h
    cases h
    simp
  | cons b rs ih =>
    intro a ds h
    simp only [legDists] at h
    split at h
    · exact Option.noConfusion h
    · rename_i sub d hfind
      rcases Option.map_eq_some'.mp h with ⟨ds2, hds2, rfl⟩
      intro x hx
      rcases List.mem_cons.mp hx with rfl | hx2
      · rw [(findShortestPath_ok hfind).2.2.2]
        exact pathWeight_nonneg hw sub
      · exact ih b ds2 hds2 x hx2

theorem legsLoop_dists {G : Graph} :
    ∀ (rest : List String) (a : String) (acc : List String) (tot : ℚ)
      (path : List String) (t : ℚ),
      legsLoop G a rest acc tot = .ok (path, t) →
      ∃ ds, legDists G a rest = some ds ∧ t = ds.foldl (· + ·) tot := by
  intro rest
  induction rest with
  | nil =>
    intro a acc tot path t h
    simp only [legsLoop] at h
    cases h
    exact ⟨[], rfl, rfl⟩
  | cons b rs ih =>
    intro a acc tot path t h
    simp only [legsLoop] at h
    split at h
    · exact Except.noConfusion h
    · rename_i sub d hfind
      obtain ⟨ds, hds, ht⟩ := ih b _ _ path t h
      refine ⟨d :: ds, ?_, ?_⟩
      · simp only [legDists, hfind, hds, Option.map_some']
      · rw [List.foldl_cons]
        exact ht

theorem weakSub_prepend : ∀ (pre l p : List String), weakSub l p = true →
    weakSub l (pre ++ p) = true := by
  intro pre
  induction pre with
  | nil => intro l p h; simpa using h
  | cons x rest ih =>
    intro l p h
    cases l with
    | nil => simp [weakSub]
    | cons r rs =>
      rw [List.cons_append]
      simp only [weakSub, Bool.or_eq_true]
      exact Or.inr (ih _ _ h)

theorem weakSub_through : ∀ (sub ext : List String) (b : String) (l : List String),
    sub.getLast? = some b → weakSub l (b :: ext) = true → weakSub l (sub ++ ext) = true := by
  intro sub
  induction sub with
  | nil => intro ext b l h; simp at h
  | cons x rest ih =>
    intro ext b l hlast hws
    cases rest with
    | nil =>
      simp only [List.getLast?_singleton, Option.some.injEq] at hlast
      subst hlast
      simpa using hws
    | cons y rest2 =>
      have hlast2 : (y :: rest2).getLast? = some b := by
        rw [List.getLast?_cons_cons] at hlast
        exact hlast
      exact weakSub_prepend [x] l _ (ih ext b l hlast2 hws)

theorem weakSub_cons (r : String) (rs p : List String) (h : weakSub rs (r :: p) = true) :
    weakSub (r :: rs) (r :: p) = true := by
  rw [weakSub.eq_def]
  dsimp only
  rw [Bool.or_eq_true, Bool.and_eq_true]
  exact Or.inl ⟨beq_self_eq_true r, h⟩

theorem legsLoop_weakSub {G : Graph} :
    ∀ (rest : List String) (a : String) (acc : List String) (tot : ℚ)
      (path : List String) (t : ℚ),
      acc.getLast? = some a →
      legsLoop G a rest acc tot = .ok (path, t) →
      ∃ ext, path = acc ++ ext ∧ weakSub (a :: rest) (a :: ext) = true := by
  intro rest
  induction rest with
  | nil =>
    intro a acc tot path t hlast h
    simp only [legsLoop] at h
    cases h
    exact ⟨[], by simp, by simp [weakSub]⟩
  | cons b rs ih =>
    intro a acc tot path t hlast h
    simp only [legsLoop] at h
    split at h
    · exact Except.noConfusion h
    · rename_i sub d hfind
      have hne : acc ≠ [] := by
        intro hh
        subst hh
        simp at hlast
      have happ : appendToPath acc sub = acc ++ sub.drop 1 := by
        unfold appendToPath
        rw [if_neg]
        simp [hne]
      obtain ⟨suba, hsub⟩ := findShortestPath_shape hfind
      have hsublast := findShortestPath_last hfind
      have hlast2 : (acc ++ sub.drop 1).getLast? = some b := by
        subst hsub
        cases suba with
        | nil =>
          simp only [List.getLast?_singleton, Option.some.injEq] at hsublast
          subst hsublast
          simpa using hlast
        | cons z zs =>
          rw [List.getLast?_cons_cons] at hsublast
          simp only [List.drop_succ_cons, List.drop_zero]
          rw [List.getLast?_append, hsublast]
          rfl
      rw [happ] at h
      obtain ⟨ext2, hpath, hws⟩ := ih b _ _ path t hlast2 h
      refine ⟨sub.drop 1 ++ ext2, by rw [hpath, List.append_assoc], ?_⟩
      apply weakSub_cons
      have hform : a :: (sub.drop 1 ++ ext2) = sub ++ ext2 := by
        rw [hsub]
        rfl
      rw [hform]
      exact weakSub_through sub ext2 b _ hsublast hws

theorem legsLoop_all {G : Graph} (P : String → Prop)
    (hleg : ∀ a b sub d, findShortestPath G a b = .ok (sub, d) → ∀ x ∈ sub, P x) :
    ∀ (rest : List String) (a : String) (acc : List String) (tot : ℚ)
      (path : List String) (t : ℚ),
      (∀ x ∈ acc, P x) →
      legsLoop G a rest acc tot = .ok (path, t) →
      ∀ x ∈ path, P x := by
  intro rest
  induction rest with
  | nil =>
    intro a acc tot path t hacc h
    simp only [legsLoop] at h
    cases h
    exact hacc
  | cons b rs ih =>
    intro a acc tot path t hacc h
    simp only [legsLoop] at h
    split at h
    · exact Except.noConfusion h
    · rename_i sub d hfind
      apply ih b _ _ path t _ h
      intro x hx
      unfold appendToPath at hx
      split at hx
      · exact hleg a b sub d hfind x hx
      · rcases List.mem_append.mp hx with hx | hx
        · exact hacc x hx
        · exact hleg a b sub d hfind x (List.drop_subset 1 sub hx)

theorem legsLoop_first_error {G : Graph} {a b : String} {err : FindError} {post : List String}
    (hab : findShortestPath G a b = .error err) :
    ∀ (mid : List String) (x : String) (acc : List String) (tot : ℚ),
      (∀ uv ∈ pairsOf (x :: mid ++ [a]), ∃ r, findShortestPath G uv.1 uv.2 = .ok r) →
      legsLoop G x (mid ++ a :: b :: post) acc tot = .error (.legError a b err) := by
  intro mid
  induction mid with
  | nil =>
    intro x acc tot hpre
    obtain ⟨⟨sub, d⟩, hr⟩ := hpre (x, a) (by simp [pairsOf])
    simp only [List.nil_append, legsLoop, hr, hab]
  | cons y mid2 ih =>
    intro x acc tot hpre
    obtain ⟨⟨sub, d⟩, hr⟩ := hpre (x, y) (by simp [pairsOf])
    simp only [List.cons_append, legsLoop, hr]
    apply ih y _ _
    intro uv huv
    apply hpre uv
    have : pairsOf (x :: (y :: mid2) ++ [a]) = (x, y) :: pairsOf (y :: mid2 ++ [a]) := by
      simp [pairsOf]
    rw [this]
    exact List.mem_cons_of_mem _ huv

theorem executePlanCore_ok_inv {G : Graph} {p : Plan} {path : List String} {t : ℚ}
    (h : executePlanCore G p = .ok (path, t)) :
    ∃ s e, p.start = some s ∧ p.endId = some e ∧
      legsLoop G s (p.waypoints ++ [e]) [] 0 = .ok (path, t) := by
  unfold executePlanCore at h
  cases hs : p.start with
  | none => rw [hs] at h; exact Except.noConfusion h
  | some s =>
    cases he : p.endId with
    | none => rw [hs, he] at h; exact Except.noConfusion h
    | some e =>
      rw [hs, he] at h
      refine ⟨s, e, rfl, rfl, ?_⟩
      dsimp only at h
      split at h
      · exact Except.noConfusion h
      · rename_i path2 tot2 hl2
        split at h
        · rw [Except.ok.injEq, Prod.mk.injEq] at h
          obtain ⟨h3, h4⟩ := h
          subst h3
          subst h4
          exact hl2
        · exact Except.noConfusion h

theorem executePlanCore_error_of_legs {G : Graph} {p : Plan} {s e : String} {err : ExecError}
    (hs : p.start = some s) (he : p.endId = some e)
    (hl : legsLoop G s (p.waypoints ++ [e]) [] 0 = .error err) :
    executePlanCore G p = .error err := by
  simp only [executePlanCore, hs, he, hl]

theorem executePlanCore_missing {G : Graph} {p : Plan}
    (h : p.start = none ∨ p.endId = none) :
    executePlanCore G p = .error .missingStartEnd := by
  rcases h with h | h
  · simp only [executePlanCore, h]
  · cases hs : p.start <;> simp only [executePlanCore, h, hs]

theorem executePlan_eq_core {v : Venue} {p : Plan} {G0 : Graph}
    (hb : buildStoreGraph v = .ok G0) :
    executePlan v p = executePlanCore (removeAvoids G0 p.avoid) p := by
  simp only [executePlan, hb]

theorem executePlan_ok_inv {v : Venue} {p : Plan} {path : List String} {t : ℚ}
    (h : executePlan v p = .ok (path, t)) :
    ∃ G0 s e, buildStoreGraph v = .ok G0 ∧ p.start = some s ∧ p.endId = some e ∧
      legsLoop (removeAvoids G0 p.avoid) s (p.waypoints ++ [e]) [] 0 = .ok (path, t) := by
  unfold executePlan at h
  cases hb : buildStoreGraph v with
  | error e0 => rw [hb] at h; exact Except.noConfusion h
  | ok G0 =>
    rw [hb] at h
    obtain ⟨s, e, hs, he, hl⟩ := executePlanCore_ok_inv h
    exact ⟨G0, s, e, rfl, hs, he, hl⟩

theorem venueWeightsNonneg_spec {v : Venue} (h : venueWeightsNonneg v = true) :
    ∀ se ∈ v.edges, ∀ dw ∈ se.2, ∀ q : ℚ, dw.2 = Wt.num q → 0 ≤ q := by
  intro se hse dw hdw q hq
  unfold venueWeightsNonneg at h
  rw [List.all_eq_true] at h
  have h2 := h se hse
  rw [List.all_eq_true] at h2
  have h3 := h2 dw hdw
  rw [hq] at h3
  exact of_decide_eq_true h3

theorem set_append_length (l : List Graph) (x y : Graph) :
    (l ++ [x]).set l.length y = l ++ [y] := by
  induction l with
  | nil => rfl
  | cons a rest ih =>
    simp only [List.cons_append, List.length_cons, List.set_cons_succ, ih]

theorem getD_append_left (l m : List Graph) (i : Nat) (d : Graph) (h : i < l.length) :
    (l ++ m).getD i d = l.getD i d := by
  induction l generalizing i with
  | nil => simp at h
  | cons a rest ih =>
    cases i with
    | zero => rfl
    | succ j =>
      simp only [List.cons_append, List.getD_cons_succ]
      exact ih j (by simpa using h)

theorem getD_append_length (l : List Graph) (x d : Graph) :
    (l ++ [x]).getD l.length d = x := by
  induction l with
  | nil => rfl
  | cons a rest ih => simp only [List.cons_append, List.length_cons, List.getD_cons_succ, ih]

/-- The stateful and the plain embedding agree on the returned value. -/
theorem executePlanSt_fst (v : Venue) (p : Plan) (s : ObjStore) :
    (executePlanSt v p s).1 = executePlan v p := by
  unfold executePlanSt executePlan
  cases hb : buildStoreGraph v with
  | error e0 => rfl
  | ok G0 =>
    dsimp only
    rw [set_append_length, getD_append_length, getD_append_length]

/-- C1: on the spec's example graph (ENTRY1, D03, E02, REG with edges
ENTRY1-D03:2, D03-E02:2, D03-REG:2, E02-REG:3), executing the plan
start ENTRY1, waypoints D03 and E02, end REG, no avoid set, returns the
path ENTRY1, D03, E02, REG with total distance 7. -/
theorem example_scenario_route :
    executePlan exVenue exPlan = .ok (["ENTRY1", "D03", "E02", "REG"], 7) := by
  with_unfolding_all rfl

/-- C2: whenever `execute_plan` succeeds, the requested sequence
start, waypoints, end occurs in the returned path at non-decreasing
positions, i.e. every requested identifier appears and the occurrences
respect the requested relative order. -/
theorem waypoints_in_requested_order (v : Venue) (p : Plan) (s e : String)
    (path : List String) (t : ℚ)
    (hs : p.start = some s) (he : p.endId = some e)
    (h : executePlan v p = .ok (path, t)) :
    weakSub (s :: (p.waypoints ++ [e])) path = true := by
  obtain ⟨G0, s2, e2, hb, hs2, he2, hl⟩ := executePlan_ok_inv h
  rw [hs] at hs2
  injection hs2 with hseq
  subst hseq
  rw [he] at he2
  injection he2 with heeq
  subst heeq
  cases hw : p.waypoints ++ [e] with
  | nil => simp at hw
  | cons b rs =>
    rw [hw] at hl
    simp only [legsLoop] at hl
    split at hl
    · exact Except.noConfusion hl
    · rename_i sub d hfind
      have happ : appendToPath [] sub = sub := by
        simp [appendToPath]
      rw [happ] at hl
      have hsublast := findShortestPath_last hfind
      obtain ⟨ext, hpath, hws⟩ := legsLoop_weakSub rs b sub (0 + d) path t hsublast hl
      obtain ⟨suba, hsubeq⟩ := findShortestPath_shape hfind
      rw [hpath, hsubeq, List.cons_append]
      apply weakSub_cons
      rw [← List.cons_append, ← hsubeq]
      exact weakSub_through sub ext b _ hsublast hws

/-- C2 witness: the example run keeps ENTRY1, D03, E02, REG in order. -/
theorem waypoints_in_requested_order_app :
    weakSub ("ENTRY1" :: (["D03", "E02"] ++ ["REG"])) ["ENTRY1", "D03", "E02", "REG"] = true :=
  waypoints_in_requested_order exVenue exPlan "ENTRY1" "REG" ["ENTRY1", "D03", "E02", "REG"] 7
    rfl rfl (by with_unfolding_all rfl)

/-- C3: whenever `execute_plan` succeeds, no node of the request's avoid
set occurs anywhere in the returned path. -/
theorem avoid_not_in_path (v : Venue) (p : Plan) (path : List String) (t : ℚ)
    (h : executePlan v p = .ok (path, t)) :
    path.filter (fun x => decide (x ∈ p.avoid)) = [] := by
  obtain ⟨G0, s, e, hb, hs, he, hl⟩ := executePlan_ok_inv h
  rw [List.filter_eq_nil_iff]
  intro x hx
  simp only [decide_eq_true_eq]
  refine legsLoop_all (fun y => ¬ y ∈ p.avoid) ?_ (p.waypoints ++ [e]) s [] 0 path t
    (by simp) hl x hx
  intro a b sub d hfind y hy
  rcases simplePathsAux_mem _ _ _ _ (findShortestPath_ok hfind).2.2.1 y hy with rfl | hye
  · exact hasNode_removeAvoids_not_avoid (findShortestPath_ok hfind).1
  · exact edgeNodes_removeAvoids_not_avoid hye

/-- C3 witness: avoiding E02 on the example venue yields the path
ENTRY1, D03, REG, which contains no avoided node. -/
theorem avoid_not_in_path_app :
    (["ENTRY1", "D03", "REG"] : List String).filter
      (fun x => decide (x ∈ exPlanAvoid.avoid)) = [] :=
  avoid_not_in_path exVenue exPlanAvoid ["ENTRY1", "D03", "REG"] 4 (by with_unfolding_all rfl)

/-- C4: whenever `execute_plan` succeeds on a venue whose declared edge
weights are all non-negative, the returned total is exactly the
left-to-right fold of the per-leg shortest-path distances on the
filtered graph (no leg is omitted), and it is non-negative.  The
source's numeric guard around the accumulation never fires, since every
leg distance returned by `find_shortest_path` is numeric. -/
theorem total_distance_sums_legs (v : Venue) (p : Plan) (s e : String) (G0 : Graph)
    (path : List String) (t : ℚ) (ds : List ℚ)
    (hwnn : venueWeightsNonneg v = true)
    (hs : p.start = some s) (he : p.endId = some e)
    (hb : buildStoreGraph v = .ok G0)
    (hd : legDists (removeAvoids G0 p.avoid) s (p.waypoints ++ [e]) = some ds)
    (h : executePlan v p = .ok (path, t)) :
    t = ds.foldl (· + ·) 0 ∧ 0 ≤ t := by
  obtain ⟨G0b, s2, e2, hb2, hs2, he2, hl⟩ := executePlan_ok_inv h
  rw [hb] at hb2
  injection hb2 with hG
  subst hG
  rw [hs] at hs2
  injection hs2 with h1
  subst h1
  rw [he] at he2
  injection he2 with h2
  subst h2
  obtain ⟨ds2, hds2, ht⟩ := legsLoop_dists (p.waypoints ++ [e]) s [] 0 path t hl
  rw [hd] at hds2
  injection hds2 with h3
  subst h3
  have hGw : ∀ f ∈ (removeAvoids G0 p.avoid).edges, 0 ≤ f.2.2 :=
    fun f hf =>
      buildStoreGraph_nonneg (venueWeightsNonneg_spec hwnn) hb f (removeAvoids_edges_mem hf)
  refine ⟨ht, ?_⟩
  rw [ht]
  exact foldl_add_nonneg ds 0 le_rfl (legDists_nonneg hGw (p.waypoints ++ [e]) s ds hd)

/-- C4 witness: the example run's total 7 is the fold of the leg
distances 2, 2, 3, and is non-negative. -/
theorem total_distance_sums_legs_app :
    (7 : ℚ) = ([2, 2, 3] : List ℚ).foldl (· + ·) 0 ∧ (0 : ℚ) ≤ 7 :=
  total_distance_sums_legs exVenue exPlan "ENTRY1" "REG" gEx ["ENTRY1", "D03", "E02", "REG"] 7
    [2, 2, 3] (by with_unfolding_all rfl) rfl rfl (by with_unfolding_all rfl)
    (by with_unfolding_all rfl) (by with_unfolding_all rfl)

theorem executePlan_leg_error (v : Venue) (p : Plan) (s e : String) (G0 : Graph)
    (pre post : List String) (a b : String) (err : FindError)
    (hs : p.start = some s) (he : p.endId = some e)
    (hb : buildStoreGraph v = .ok G0)
    (hseq : s :: (p.waypoints ++ [e]) = pre ++ a :: b :: post)
    (hpre : ∀ uv ∈ pairsOf (pre ++ [a]),
      ∃ r, findShortestPath (removeAvoids G0 p.avoid) uv.1 uv.2 = .ok r)
    (hfind : findShortestPath (removeAvoids G0 p.avoid) a b = .error err) :
    executePlan v p = .error (.legError a b err) := by
  rw [executePlan_eq_core hb]
  cases pre with
  | nil =>
    rw [List.nil_append] at hseq
    injection hseq with h1 h2
    subst h1
    apply executePlanCore_error_of_legs hs he
    rw [h2]
    simp only [legsLoop, hfind]
  | cons x pre2 =>
    rw [List.cons_append] at hseq
    injection hseq with h1 h2
    subst h1
    apply executePlanCore_error_of_legs hs he
    rw [h2]
    exact legsLoop_first_error hfind pre2 s [] 0 hpre

/-- C5: if every leg before (a, b) succeeds, both endpoints are present
in the filtered graph, and the filtered graph has no connecting path
from a to b, `execute_plan` stops at that leg with the wrapped no-path
error naming the leg's endpoints; no partial route is returned. -/
theorem no_path_fails_fast (v : Venue) (p : Plan) (s e : String) (G0 : Graph)
    (pre post : List String) (a b : String)
    (hs : p.start = some s) (he : p.endId = some e)
    (hb : buildStoreGraph v = .ok G0)
    (hseq : s :: (p.waypoints ++ [e]) = pre ++ a :: b :: post)
    (hpre : ∀ uv ∈ pairsOf (pre ++ [a]),
      ∃ r, findShortestPath (removeAvoids G0 p.avoid) uv.1 uv.2 = .ok r)
    (ha : hasNode (removeAvoids G0 p.avoid) a = true)
    (hb2 : hasNode (removeAvoids G0 p.avoid) b = true)
    (hnp : simplePathsBetween (removeAvoids G0 p.avoid) a b = []) :
    executePlan v p = .error (.legError a b .noPath) := by
  apply executePlan_leg_error v p s e G0 pre post a b .noPath hs he hb hseq hpre
  unfold findShortestPath
  rw [ha, hb2, hnp]
  rfl

/-- C5 witness: on the two-node edgeless venue, routing A to B fails
with the no-path error for that leg. -/
theorem no_path_fails_fast_app :
    executePlan vABdisc planAB = .error (.legError "A" "B" .noPath) :=
  no_path_fails_fast vABdisc planAB "A" "B" gABdisc [] [] "A" "B" rfl rfl
    (by with_unfolding_all rfl) rfl
    (by intro uv huv; simp [pairsOf] at huv)
    (by with_unfolding_all rfl) (by with_unfolding_all rfl) (by with_unfolding_all rfl)

/-- C6 (code evaluation): `build_store_graph` accepts a venue whose edge
table references node B, absent from the node table, with the negative
weight -2: instead of failing, it returns a fully built graph containing
the silently created attribute-less node B and the negative edge. -/
theorem build_accepts_malformed_venue :
    buildStoreGraph vMalformed =
      .ok { nodes := [("A", some ⟨0, 0, "", []⟩), ("B", none)],
            edges := [("A", "B", -2)] } := by
  with_unfolding_all rfl

/-- C7 (counterexample): the failure produced when a leg endpoint was
removed by the avoid set is the very same error value as when the
endpoint never existed in the venue, so the two cases are not
distinguishable by message or kind. -/
theorem unknown_node_error_indistinct :
    executePlan vAB planAvoidB = executePlan vA planAB ∧
      executePlan vAB planAvoidB = .error (.legError "A" "B" .invalidNodes) :=
  ⟨by with_unfolding_all rfl, by with_unfolding_all rfl⟩

/-- C7 (amended): when a leg endpoint is absent from the filtered graph
(whether removed by the avoid set or never present) and every earlier
leg succeeded, `execute_plan` fails with the wrapped invalid-node error
naming the leg's two endpoints; the error carries nothing that
distinguishes the two cases or even says which endpoint was invalid. -/
theorem unknown_node_fails_with_leg (v : Venue) (p : Plan) (s e : String) (G0 : Graph)
    (pre post : List String) (a b : String)
    (hs : p.start = some s) (he : p.endId = some e)
    (hb : buildStoreGraph v = .ok G0)
    (hseq : s :: (p.waypoints ++ [e]) = pre ++ a :: b :: post)
    (hpre : ∀ uv ∈ pairsOf (pre ++ [a]),
      ∃ r, findShortestPath (removeAvoids G0 p.avoid) uv.1 uv.2 = .ok r)
    (hab : (hasNode (removeAvoids G0 p.avoid) a &&
            hasNode (removeAvoids G0 p.avoid) b) = false) :
    executePlan v p = .error (.legError a b .invalidNodes) := by
  apply executePlan_leg_error v p s e G0 pre post a b .invalidNodes hs he hb hseq hpre
  unfold findShortestPath
  rw [hab]
  rfl

/-- C7 witness: avoiding B removes it from the filtered graph and the
A-to-B leg fails with the invalid-node error naming A and B. -/
theorem unknown_node_fails_with_leg_app :
    executePlan vAB planAvoidB = .error (.legError "A" "B" .invalidNodes) :=
  unknown_node_fails_with_leg vAB planAvoidB "A" "B" gAB [] [] "A" "B" rfl rfl
    (by with_unfolding_all rfl) rfl
    (by intro uv huv; simp [pairsOf] at huv)
    (by with_unfolding_all rfl)

/-- C8 (counterexample): a plan whose start is the empty string is not
rejected as an empty request: the source's None check passes it through,
and the call instead fails at the first leg with the wrapped
invalid-node error, a different error from the missing start/end one. -/
theorem empty_string_start_not_empty_request :
    executePlan vAB planEmptyStart = .error (.legError "" "B" .invalidNodes) ∧
      ExecError.legError "" "B" .invalidNodes ≠ ExecError.missingStartEnd :=
  ⟨by with_unfolding_all rfl, by intro hcon; exact ExecError.noConfusion hcon⟩

/-- C8 (amended): when start or end is unset (missing key or None) and
graph construction succeeds, `execute_plan` raises the missing start/end
ValueError before computing any leg; an empty string is not caught by
this check. -/
theorem none_start_end_rejected (v : Venue) (p : Plan) (G0 : Graph)
    (hb : buildStoreGraph v = .ok G0) (h : p.start = none ∨ p.endId = none) :
    executePlan v p = .error .missingStartEnd := by
  rw [executePlan_eq_core hb]
  exact executePlanCore_missing h

/-- C8 witness: a plan with no start key at all is rejected with the
missing start/end error. -/
theorem none_start_end_rejected_app :
    executePlan vAB planNoneStart = .error .missingStartEnd :=
  none_start_end_rejected vAB planNoneStart gAB (by with_unfolding_all rfl) (Or.inl rfl)

/-- C9: `execute_plan` allocates a fresh graph object for its own
`build_store_graph()` call and `remove_avoids` mutates only that object,
so every graph object that existed before the call, in particular a
shared loaded graph, is unchanged afterwards: same nodes, attributes,
edges and weights. -/
theorem shared_graphs_unmodified (v : Venue) (p : Plan) (s : ObjStore) (i : Nat)
    (hi : i < s.graphs.length) :
    (executePlanSt v p s).2.graphs.getD i emptyGraph = s.graphs.getD i emptyGraph := by
  unfold executePlanSt
  cases hb : buildStoreGraph v with
  | error e0 => rfl
  | ok G0 =>
    dsimp only
    rw [set_append_length]
    exact getD_append_left _ _ _ _ hi

/-- C9 witness: a shared loaded graph in slot 0 is unchanged by a call
with a non-empty avoid set. -/
theorem shared_graphs_unmodified_app :
    (executePlanSt vAB planAvoidB ⟨[gAB]⟩).2.graphs.getD 0 emptyGraph =
      (⟨[gAB]⟩ : ObjStore).graphs.getD 0 emptyGraph :=
  shared_graphs_unmodified vAB planAvoidB ⟨[gAB]⟩ 0 (by decide)

/-- C10: `find_section_by_item` appends one result entry per matching
item, so the node whose item list contains both milk and milkshake is
reported twice, with the same (node, section) pair, for the query
milk. -/
theorem item_lookup_duplicates :
    buildStoreGraph vDairy = .ok gDairy ∧
      findSectionByItem gDairy "milk" = [("A", "Dairy"), ("A", "Dairy")] :=
  ⟨by with_unfolding_all rfl, by with_unfolding_all rfl⟩

end ShoppingLLM
